import Mathlib

/-!
Shallow embedding of the voicemail-assistant core, and proofs about it.

Part 1 embeds the identity reconciler from
src/railway-service/src/mapping.ts (normalize, similarity, extractEmail,
mapThreads).  Part 2 embeds the command dispatcher from the Vapi webhook
route (handleArchive, handleDelete, handleStar, handleSkip, handleUndo,
handleGetRemainingCount, handleEndSession, handleGetCurrentEmail,
moveToNextEmail, storeUndoAction, processToolCall).

Machine integers are modelled as Nat, JS numbers that can go negative as
Int, and similarity scores (JS floats with small exact decimal inputs) as
rationals.  Strings are modelled through their character lists, with the
JS regexes of the source spelled out as character predicates.
-/

namespace Mapping

/-- JS regex class `\w` : letters, digits, underscore. -/
def jsIsWordChar (c : Char) : Bool :=
  c.isAlphanum || c = '_'

/-- JS regex class `\s` restricted to the ASCII whitespace characters. -/
def jsIsSpace (c : Char) : Bool :=
  c = ' ' || c = '\t' || c = '\n' || c = '\r' || c = '\x0b' || c = '\x0c'

/-- One pass of `.replace(/\s+/g, ' ')` : every maximal run of whitespace
becomes a single space.  The boolean records whether the previous kept
character came from a whitespace run. -/
def collapseAux : Bool → List Char → List Char
  | _, [] => []
  | prevSpace, c :: rest =>
    if jsIsSpace c then
      if prevSpace then collapseAux true rest
      else ' ' :: collapseAux true rest
    else c :: collapseAux false rest

/-- JS `String.prototype.trim` on a character list. -/
def jsTrim (l : List Char) : List Char :=
  ((l.dropWhile jsIsSpace).reverse.dropWhile jsIsSpace).reverse

/-- The `normalize` function of mapping.ts: lowercase, strip punctuation
(`[^\w\s]` removed), collapse whitespace, trim. -/
def normalizeChars (l : List Char) : List Char :=
  let lowered := l.map Char.toLower
  let noPunct := lowered.filter (fun c => jsIsWordChar c || jsIsSpace c)
  jsTrim (collapseAux false noPunct)

/-- JS `split(' ')` : split at every single space; an empty string yields
one empty token, exactly as in JS. -/
def splitOnSpaceAux : List Char → List Char → List (List Char)
  | cur, [] => [cur.reverse]
  | cur, c :: rest =>
    if c = ' ' then cur.reverse :: splitOnSpaceAux [] rest
    else splitOnSpaceAux (c :: cur) rest

def splitOnSpace (l : List Char) : List (List Char) :=
  splitOnSpaceAux [] l

/-- Token set of a string: `new Set(normalize(str).split(' '))`, modelled
as the deduplicated token list. -/
def tokenSet (s : String) : List (List Char) :=
  (splitOnSpace (normalizeChars s.data)).dedup

/-- The `similarity` function of mapping.ts: overlap coefficient of the
two token sets. -/
def similarity (a b : String) : ℚ :=
  let aWords := tokenSet a
  let bWords := tokenSet b
  if aWords.length = 0 ∧ bWords.length = 0 then 1
  else if aWords.length = 0 ∨ bWords.length = 0 then 0
  else
    let overlap := (aWords.filter (fun w => bWords.contains w)).length
    (overlap : ℚ) / ((min aWords.length bWords.length : ℕ) : ℚ)

/-- First match of the regex `<([^>]+)>` : the capture group of the
leftmost occurrence of an angle-bracketed non-empty run. -/
def findBracketed : List Char → Option (List Char)
  | [] => none
  | c :: rest =>
    if c = '<' then
      let inner := rest.takeWhile (fun d => d ≠ '>')
      if inner ≠ [] ∧ inner.length < rest.length then some inner
      else findBracketed rest
    else findBracketed rest

/-- The `extractEmail` function of mapping.ts. -/
def extractEmail (sender : String) : String :=
  match findBracketed sender.data with
  | some inner => String.mk (inner.map Char.toLower)
  | none =>
    if sender.data.contains '@' then String.mk (jsTrim (sender.data.map Char.toLower))
    else String.mk (jsTrim (sender.data.map Char.toLower))

structure SuperhumanThread where
  position : Nat
  sender : String
  subject : String
  timestamp : String
  superhumanThreadId : String
  rawText : String
deriving DecidableEq, Repr

structure GmailThread where
  threadId : String
  subject : String
  sender : String
  senderEmail : String
  snippet : String
  receivedAt : String
deriving DecidableEq, Repr

/-- MappedThread record; `matchMethod` keeps the string values of the
source ("exact", "fuzzy", "none"). -/
structure MappedThread where
  position : Nat
  superhumanThread : SuperhumanThread
  gmailThread : Option GmailThread
  matchConfidence : ℚ
  matchMethod : String
deriving DecidableEq, Repr

/-- `score = subjectScore * 0.7 + senderScore * 0.3` for one candidate. -/
def fuzzyScore (sh : SuperhumanThread) (g : GmailThread) : ℚ :=
  similarity sh.subject g.subject * (7/10) +
    similarity (extractEmail sh.sender) g.senderEmail * (3/10)

/-- Body of the fuzzy-matching loop of mapThreads: skip used candidates,
keep a candidate only when its score strictly improves the best so far
and clears the 0.5 threshold. -/
def fuzzyStep (sh : SuperhumanThread) (used : List String)
    (acc : Option GmailThread × ℚ) (g : GmailThread) : Option GmailThread × ℚ :=
  if used.contains g.threadId then acc
  else
    let score := fuzzyScore sh g
    if score > acc.2 ∧ score > 1/2 then (some g, score) else acc

/-- The fuzzy-matching loop of mapThreads, started from
`bestMatch = null, bestScore = 0`. -/
def fuzzyScan (sh : SuperhumanThread) (used : List String)
    (gmailThreads : List GmailThread) : Option GmailThread × ℚ :=
  gmailThreads.foldl (fuzzyStep sh used) (none, 0)

/-- One iteration of the main loop of mapThreads: try the exact thread-id
match first (only when the observed id is non-empty), otherwise run the
fuzzy scan; on any match the canonical id joins the used set. -/
def mapStep (gmailThreads : List GmailThread)
    (acc : List MappedThread × List String) (shThread : SuperhumanThread) :
    List MappedThread × List String :=
  let results := acc.1
  let used := acc.2
  let exactMatch : Option GmailThread :=
    if shThread.superhumanThreadId ≠ "" then
      gmailThreads.find? (fun g =>
        g.threadId == shThread.superhumanThreadId && !(used.contains g.threadId))
    else none
  match exactMatch with
  | some g =>
    (results ++ [⟨shThread.position, shThread, some g, 1, "exact"⟩],
      used ++ [g.threadId])
  | none =>
    let scan := fuzzyScan shThread used gmailThreads
    match scan.1 with
    | some g =>
      (results ++ [⟨shThread.position, shThread, some g, scan.2, "fuzzy"⟩],
        used ++ [g.threadId])
    | none =>
      (results ++ [⟨shThread.position, shThread, none, scan.2, "none"⟩], used)

/-- The `mapThreads` function of mapping.ts. -/
def mapThreads (superhumanThreads : List SuperhumanThread)
    (gmailThreads : List GmailThread) : List MappedThread :=
  (superhumanThreads.foldl (mapStep gmailThreads) ([], [])).1

/-- The canonical ids claimed by the results, in result order. -/
def matchedIds (results : List MappedThread) : List String :=
  results.filterMap (fun r => r.gmailThread.map (fun g => g.threadId))

end Mapping

namespace Webhook

/-- Queue item as stored in the session snapshot. -/
structure QueueItem where
  position : Nat
  threadId : String
  subject : String
  sender : String
  snippet : String
deriving DecidableEq, Repr

/-- Session row; status keeps the string values of the source
("active", "paused", "completed"). -/
structure SessionData where
  id : String
  account_email : String
  status : String
  queue_snapshot : List QueueItem
  current_index : Nat
deriving DecidableEq, Repr

/-- One row of the undo_actions table.  `reverse_type` is the `type`
field of the stored reverse_action object; times are in milliseconds. -/
structure UndoRow where
  rowId : Nat
  session_id : String
  action_type : String
  gmail_thread_id : String
  reverse_type : String
  created_at : Nat
  expires_at : Nat
deriving DecidableEq, Repr

/-- The database state a dispatch sees: the session row, the undo_actions
rows for it (in insertion order), and the next fresh row id. -/
structure DBState where
  session : SessionData
  undo_actions : List UndoRow
  next_row_id : Nat
deriving DecidableEq, Repr

/-- A full email thread as returned by getThread. -/
structure EmailThread where
  sender : String
  subject : String
  snippet : String
  body : String
deriving DecidableEq, Repr

/-- Outcomes of the external collaborators during one command: whether
getGmailClient yields a client, whether the single thread mutation of the
command succeeds (false = the call throws), and the getThread result
(none = the fetch throws). -/
structure ExtBehavior where
  gmailOk : Bool
  mutOk : Bool
  fetched : Option EmailThread
deriving DecidableEq, Repr

/-- The closed command set of the dispatcher (tool-call names). -/
inductive Command
  | archive_email | delete_email | star_email | skip_email
  | undo_cmd | get_remaining_count | end_session | get_current_email
deriving DecidableEq, Repr

/-- The machine-readable data payloads returned by the handlers. -/
inductive ToolData
  | errorData (msg : String)
  | successFlag (b : Bool)
  | actionData (action : String) (threadId : String)
  | skipData
  | undoData (undoneAction : String)
  | remainingData (remaining : Int) (total : Nat) (current : Nat)
  | endData (processed : Nat) (remaining : Int)
  | emailData (e : Option (QueueItem ⊕ EmailThread))
deriving DecidableEq, Repr

structure ToolResult where
  data : ToolData
  message : String
deriving DecidableEq, Repr

/-- The moveToNextEmail helper: unconditionally bump current_index; at or
past the end of the queue also set status to completed. -/
def moveToNextEmail (s : SessionData) : SessionData × Option QueueItem × Option String :=
  let queue := s.queue_snapshot
  let nextIndex := s.current_index + 1
  if nextIndex ≥ queue.length then
    ({ s with current_index := nextIndex, status := "completed" }, none,
      some "You\x27ve reached the end of your inbox. Nice work!")
  else
    ({ s with current_index := nextIndex }, queue[nextIndex]?, none)

/-- The announcement tail shared by archive/delete/star/skip messages. -/
def nextAnnouncement (nextEmail : Option QueueItem) (msg : Option String) : String :=
  match msg with
  | some m => m
  | none =>
    match nextEmail with
    | some e =>
      "Next email from " ++ e.sender ++ ". Subject: " ++ e.subject ++ ". " ++ e.snippet
    | none => "You\x27ve reached the end of your inbox. Nice work!"

/-- The storeUndoAction helper: append a row whose expiry is 15 seconds
after the current time. -/
def storeUndoAction (db : DBState) (sessionId : String) (actionType : String)
    (threadId : String) (reverseType : String) (now : Nat) : DBState :=
  let expiresAt := now + 15 * 1000
  { db with
    undo_actions := db.undo_actions ++
      [⟨db.next_row_id, sessionId, actionType, threadId, reverseType, now, expiresAt⟩],
    next_row_id := db.next_row_id + 1 }

/-- Handlers that call the external mutator may throw; `Except.error db`
models an exception escaping the handler with the database left in state
`db`, to be caught by processToolCall. -/
def handleArchive (ext : ExtBehavior) (now : Nat) (db : DBState)
    (currentEmail : Option QueueItem) : Except DBState (DBState × ToolResult) :=
  match currentEmail with
  | none =>
    .ok (db, ⟨.successFlag false, "You\x27ve reached the end of your inbox. Nice work!"⟩)
  | some email =>
    if !ext.gmailOk then
      .ok (db, ⟨.successFlag false, "I couldn\x27t connect to your email. Please try again."⟩)
    else if !ext.mutOk then
      .error db
    else
      let db1 := storeUndoAction db db.session.id "archive" email.threadId "unarchive" now
      let next := moveToNextEmail db1.session
      let db2 := { db1 with session := next.1 }
      .ok (db2, ⟨.actionData "archive" email.threadId,
        "Archived. " ++ nextAnnouncement next.2.1 next.2.2⟩)

def handleDelete (ext : ExtBehavior) (now : Nat) (db : DBState)
    (currentEmail : Option QueueItem) : Except DBState (DBState × ToolResult) :=
  match currentEmail with
  | none =>
    .ok (db, ⟨.successFlag false, "You\x27ve reached the end of your inbox."⟩)
  | some email =>
    if !ext.gmailOk then
      .ok (db, ⟨.successFlag false, "I couldn\x27t connect to your email. Please try again."⟩)
    else if !ext.mutOk then
      .error db
    else
      let db1 := storeUndoAction db db.session.id "delete" email.threadId "undelete" now
      let next := moveToNextEmail db1.session
      let db2 := { db1 with session := next.1 }
      .ok (db2, ⟨.actionData "delete" email.threadId,
        "Deleted. " ++ nextAnnouncement next.2.1 next.2.2⟩)

def handleStar (ext : ExtBehavior) (now : Nat) (db : DBState)
    (currentEmail : Option QueueItem) : Except DBState (DBState × ToolResult) :=
  match currentEmail with
  | none =>
    .ok (db, ⟨.successFlag false, "You\x27ve reached the end of your inbox."⟩)
  | some email =>
    if !ext.gmailOk then
      .ok (db, ⟨.successFlag false, "I couldn\x27t connect to your email. Please try again."⟩)
    else if !ext.mutOk then
      .error db
    else
      let db1 := storeUndoAction db db.session.id "star" email.threadId "unstar" now
      let next := moveToNextEmail db1.session
      let db2 := { db1 with session := next.1 }
      .ok (db2, ⟨.actionData "star" email.threadId,
        "Starred for later. " ++ nextAnnouncement next.2.1 next.2.2⟩)

def handleSkip (db : DBState) : DBState × ToolResult :=
  let next := moveToNextEmail db.session
  ({ db with session := next.1 },
    ⟨.skipData, "Skipped. " ++ nextAnnouncement next.2.1 next.2.2⟩)

/-- The supabase lookup of handleUndo: rows of this session whose expiry
is strictly in the future, ordered by created_at descending, limit 1. -/
def lookupUndo (actions : List UndoRow) (sessionId : String) (now : Nat) :
    Option UndoRow :=
  let live := actions.filter
    (fun a => a.session_id == sessionId && decide (now < a.expires_at))
  live.foldl
    (fun best a =>
      match best with
      | none => some a
      | some b => if b.created_at ≤ a.created_at then some a else some b)
    none

/-- JS Array.prototype.findIndex, as an Option-valued index. -/
def jsFindIndexAux (p : QueueItem → Bool) : List QueueItem → Nat → Option Nat
  | [], _ => none
  | x :: xs, i => if p x then some i else jsFindIndexAux p xs (i + 1)

def jsFindIndex (p : QueueItem → Bool) (l : List QueueItem) : Option Nat :=
  jsFindIndexAux p l 0

def handleUndo (ext : ExtBehavior) (now : Nat) (db : DBState) :
    Except DBState (DBState × ToolResult) :=
  match lookupUndo db.undo_actions db.session.id now with
  | none =>
    .ok (db, ⟨.successFlag false, "Nothing to undo. The undo window may have expired."⟩)
  | some undoRow =>
    if !ext.gmailOk then
      .ok (db, ⟨.successFlag false, "I couldn\x27t connect to your email to undo."⟩)
    else
      let isReverseOp := undoRow.reverse_type == "unarchive" ||
        undoRow.reverse_type == "undelete" || undoRow.reverse_type == "unstar"
      if isReverseOp && !ext.mutOk then
        .error db
      else
        let db1 := { db with
          undo_actions := db.undo_actions.filter (fun a => a.rowId != undoRow.rowId) }
        let queue := db.session.queue_snapshot
        let emailIndex := jsFindIndex (fun e => e.threadId == undoRow.gmail_thread_id) queue
        let db2 :=
          match emailIndex with
          | some idx => { db1 with session := { db1.session with current_index := idx } }
          | none => db1
        .ok (db2, ⟨.undoData undoRow.action_type,
          "Undone. I\x27ve reversed the " ++ undoRow.action_type ++
            " action. Let me re-read that email."⟩)

def handleGetRemainingCount (queue : List QueueItem) (currentIndex : Nat) : ToolResult :=
  let remaining : Int := (queue.length : Int) - (currentIndex : Int)
  ⟨.remainingData remaining queue.length (currentIndex + 1),
    if remaining = 0 then "You\x27ve processed all your emails. Nice work!"
    else if remaining = 1 then "You have 1 email left."
    else "You have " ++ toString remaining ++ " emails remaining out of " ++
      toString queue.length ++ " total."⟩

def handleEndSession (db : DBState) : DBState × ToolResult :=
  let db1 := { db with session := { db.session with status := "completed" } }
  let queue := db.session.queue_snapshot
  let processed := db.session.current_index
  let remaining : Int := (queue.length : Int) - (processed : Int)
  (db1, ⟨.endData processed remaining,
    if remaining > 0 then
      "Session ended. You processed " ++ toString processed ++ " emails with " ++
        toString remaining ++ " remaining. See you next time!"
    else
      "Session complete! You processed all " ++ toString processed ++
        " emails. Great job!"⟩)

/-- getCurrent: the content fetch is caught locally, falling back to the
cached snippet, so this handler never throws and never changes state. -/
def handleGetCurrentEmail (ext : ExtBehavior) (currentEmail : Option QueueItem) :
    ToolResult :=
  match currentEmail with
  | none =>
    ⟨.emailData none,
      "You\x27ve reached the end of your inbox. Say \x27stop\x27 to end the session."⟩
  | some email =>
    match ext.fetched with
    | some full =>
      ⟨.emailData (some (.inr full)),
        "Email from " ++ full.sender ++ ". Subject: " ++ full.subject ++ ". " ++
          (if full.body != "" then full.body.take 500 else full.snippet)⟩
    | none =>
      ⟨.emailData (some (.inl email)),
        "Email from " ++ email.sender ++ ". Subject: " ++ email.subject ++ ". " ++
          email.snippet⟩

/-- processToolCall: read the current email at the stored cursor, run the
matching handler, and catch any exception, turning it into the generic
failure result with the database as the handler left it. -/
def processToolCall (cmd : Command) (ext : ExtBehavior) (now : Nat) (db : DBState) :
    DBState × ToolResult :=
  let queue := db.session.queue_snapshot
  let currentIndex := db.session.current_index
  let currentEmail := queue[currentIndex]?
  let attempt : Except DBState (DBState × ToolResult) :=
    match cmd with
    | .archive_email => handleArchive ext now db currentEmail
    | .delete_email => handleDelete ext now db currentEmail
    | .star_email => handleStar ext now db currentEmail
    | .skip_email => .ok (handleSkip db)
    | .undo_cmd => handleUndo ext now db
    | .get_remaining_count => .ok (db, handleGetRemainingCount queue currentIndex)
    | .end_session => .ok (handleEndSession db)
    | .get_current_email => .ok (db, handleGetCurrentEmail ext currentEmail)
  match attempt with
  | .ok r => r
  | .error db1 =>
    (db1, ⟨.errorData "Action failed",
      "I\x27m sorry, that action failed. Please try again."⟩)

/-- One dispatched command together with the behavior of the external
collaborators and the wall-clock time during it. -/
structure StepInput where
  cmd : Command
  ext : ExtBehavior
  now : Nat
deriving DecidableEq, Repr

def stepState (db : DBState) (s : StepInput) : DBState :=
  (processToolCall s.cmd s.ext s.now db).1

def runCommands (db : DBState) (steps : List StepInput) : DBState :=
  steps.foldl stepState db

/-- A freshly created session, as inserted by the session start route:
status active, current_index 0. -/
def freshSession (sid account : String) (queue : List QueueItem) : SessionData :=
  { id := sid, account_email := account, status := "active",
    queue_snapshot := queue, current_index := 0 }

def freshDB (sid account : String) (queue : List QueueItem) : DBState :=
  { session := freshSession sid account queue, undo_actions := [], next_row_id := 0 }

/-- The cursor upper bound of the session invariant, relativized to the
states in which the code actually maintains it: whenever the session has
not reached status completed, the cursor is within the queue. -/
def cursorOk (s : SessionData) : Prop :=
  s.status ≠ "completed" → s.current_index ≤ s.queue_snapshot.length

/-- Whether the dispatch of `cmd` reaches a call of the external mutator
(archiveThread/deleteThread/starThread, or the reverse op during undo). -/
def mutatorInvoked (cmd : Command) (ext : ExtBehavior) (now : Nat) (db : DBState) : Bool :=
  let currentEmail := db.session.queue_snapshot[db.session.current_index]?
  match cmd with
  | .archive_email | .delete_email | .star_email => currentEmail.isSome && ext.gmailOk
  | .undo_cmd =>
    match lookupUndo db.undo_actions db.session.id now with
    | some r => ext.gmailOk &&
      (r.reverse_type == "unarchive" || r.reverse_type == "undelete" ||
        r.reverse_type == "unstar")
    | none => false
  | _ => false

/-- Calling advance (moveToNextEmail) k times in a row. -/
def advanceN : Nat → SessionData → SessionData
  | 0, s => s
  | k + 1, s => advanceN k (moveToNextEmail s).1

/-- External collaborators all succeeding (content fetch throwing, which
is irrelevant to state). -/
def okExt : ExtBehavior := ⟨true, true, none⟩

/-- A sample one-item queue for concrete runs. -/
def item0 : QueueItem := ⟨0, "t0", "subject0", "sender0", "snippet0"⟩

def item1 : QueueItem := ⟨1, "t1", "subject1", "sender1", "snippet1"⟩

def sampleDB1 : DBState := freshDB "sess1" "acct" [item0]

def sampleDB2 : DBState := freshDB "sess1" "acct" [item0, item1]

def skipStep : StepInput := ⟨.skip_email, okExt, 0⟩

def endStep : StepInput := ⟨.end_session, okExt, 0⟩

end Webhook

namespace Mapping

/-- Sample observation and canonical message of the fuzzy-match example
in the spec (subject match and extracted-address match give score 1). -/
def shW : SuperhumanThread := ⟨0, "John Doe <j@x.com>", "Q1 Report", "ts", "", "raw"⟩

def gW : GmailThread := ⟨"g1", "Q1 Report", "John Doe", "j@x.com", "snip", "date"⟩

/-- Sample observation with no candidates, for the no-match result. -/
def shW0 : SuperhumanThread := ⟨0, "someone", "hello", "ts", "", "raw"⟩

def rW0 : MappedThread := ⟨0, shW0, none, 0, "none"⟩

/-- Sample observation and canonical message with matching ids, for the
exact-match case. -/
def shE : SuperhumanThread := ⟨2, "A <a@b.c>", "subj", "ts", "tX", "raw"⟩

def gE : GmailThread := ⟨"tX", "other", "A", "a@b.c", "sn", "d"⟩

/-- The per-result invariant of the reconciler output: a null match
exactly for method none, confidence 1 for exact, in (0.5, 1] for fuzzy,
and 0 for none. -/
def resultOk (r : MappedThread) : Prop :=
  (r.gmailThread = none ↔ r.matchMethod = "none") ∧
  (r.matchMethod = "exact" → r.matchConfidence = 1) ∧
  (r.matchMethod = "fuzzy" →
    (1:ℚ)/2 < r.matchConfidence ∧ r.matchConfidence ≤ 1) ∧
  (r.matchMethod = "none" → r.matchConfidence = 0)

end Mapping

-- ===================== THEOREMS =====================

namespace Webhook

theorem moveToNextEmail_current_index (s : SessionData) :
    ((moveToNextEmail s).1).current_index = s.current_index + 1 := by
  simp only [moveToNextEmail]
  split <;> rfl

theorem moveToNextEmail_queue (s : SessionData) :
    ((moveToNextEmail s).1).queue_snapshot = s.queue_snapshot := by
  simp only [moveToNextEmail]
  split <;> rfl

theorem moveToNextEmail_id (s : SessionData) :
    ((moveToNextEmail s).1).id = s.id := by
  simp only [moveToNextEmail]
  split <;> rfl

theorem moveToNextEmail_cursorOk (s : SessionData) :
    cursorOk (moveToNextEmail s).1 := by
  unfold cursorOk
  simp only [moveToNextEmail]
  split
  · intro h
    exact absurd rfl h
  · intro _
    next hlt =>
      simp only []
      omega

theorem moveToNextEmail_completed (s : SessionData) (h : s.status = "completed") :
    ((moveToNextEmail s).1).status = "completed" := by
  simp only [moveToNextEmail]
  split
  · rfl
  · exact h

theorem storeUndoAction_session (db : DBState) (a b c d : String) (now : Nat) :
    (storeUndoAction db a b c d now).session = db.session := rfl

theorem stepState_skip (db : DBState) (ext : ExtBehavior) (now : Nat) :
    stepState db ⟨.skip_email, ext, now⟩ =
      { db with session := (moveToNextEmail db.session).1 } := rfl

theorem stepState_remaining (db : DBState) (ext : ExtBehavior) (now : Nat) :
    stepState db ⟨.get_remaining_count, ext, now⟩ = db := rfl

theorem stepState_getCurrent (db : DBState) (ext : ExtBehavior) (now : Nat) :
    stepState db ⟨.get_current_email, ext, now⟩ = db := rfl

theorem stepState_endSession (db : DBState) (ext : ExtBehavior) (now : Nat) :
    stepState db ⟨.end_session, ext, now⟩ =
      { db with session := { db.session with status := "completed" } } := rfl

theorem stepState_archive_success (db : DBState) (ext : ExtBehavior) (now : Nat)
    (email : QueueItem)
    (hce : db.session.queue_snapshot[db.session.current_index]? = some email)
    (hg : ext.gmailOk = true) (hm : ext.mutOk = true) :
    stepState db ⟨.archive_email, ext, now⟩ =
      { session := (moveToNextEmail db.session).1,
        undo_actions := db.undo_actions ++
          [⟨db.next_row_id, db.session.id, "archive", email.threadId, "unarchive", now,
            now + 15 * 1000⟩],
        next_row_id := db.next_row_id + 1 } := by
  simp only [stepState, processToolCall, hce, handleArchive, hg, hm, Bool.not_true,
    Bool.false_eq_true, if_false]
  rfl

theorem stepState_delete_success (db : DBState) (ext : ExtBehavior) (now : Nat)
    (email : QueueItem)
    (hce : db.session.queue_snapshot[db.session.current_index]? = some email)
    (hg : ext.gmailOk = true) (hm : ext.mutOk = true) :
    stepState db ⟨.delete_email, ext, now⟩ =
      { session := (moveToNextEmail db.session).1,
        undo_actions := db.undo_actions ++
          [⟨db.next_row_id, db.session.id, "delete", email.threadId, "undelete", now,
            now + 15 * 1000⟩],
        next_row_id := db.next_row_id + 1 } := by
  simp only [stepState, processToolCall, hce, handleDelete, hg, hm, Bool.not_true,
    Bool.false_eq_true, if_false]
  rfl

theorem stepState_star_success (db : DBState) (ext : ExtBehavior) (now : Nat)
    (email : QueueItem)
    (hce : db.session.queue_snapshot[db.session.current_index]? = some email)
    (hg : ext.gmailOk = true) (hm : ext.mutOk = true) :
    stepState db ⟨.star_email, ext, now⟩ =
      { session := (moveToNextEmail db.session).1,
        undo_actions := db.undo_actions ++
          [⟨db.next_row_id, db.session.id, "star", email.threadId, "unstar", now,
            now + 15 * 1000⟩],
        next_row_id := db.next_row_id + 1 } := by
  simp only [stepState, processToolCall, hce, handleStar, hg, hm, Bool.not_true,
    Bool.false_eq_true, if_false]
  rfl

theorem stepState_archive_session_cases (db : DBState) (ext : ExtBehavior) (now : Nat) :
    (stepState db ⟨.archive_email, ext, now⟩).session = db.session ∨
    (stepState db ⟨.archive_email, ext, now⟩).session = (moveToNextEmail db.session).1 := by
  cases hce : db.session.queue_snapshot[db.session.current_index]? with
  | none => left; simp [stepState, processToolCall, handleArchive, hce]
  | some email =>
    cases hg : ext.gmailOk with
    | false => left; simp [stepState, processToolCall, handleArchive, hce, hg]
    | true =>
      cases hm : ext.mutOk with
      | false => left; simp [stepState, processToolCall, handleArchive, hce, hg, hm]
      | true => right; rw [stepState_archive_success db ext now email hce hg hm]

theorem stepState_delete_session_cases (db : DBState) (ext : ExtBehavior) (now : Nat) :
    (stepState db ⟨.delete_email, ext, now⟩).session = db.session ∨
    (stepState db ⟨.delete_email, ext, now⟩).session = (moveToNextEmail db.session).1 := by
  cases hce : db.session.queue_snapshot[db.session.current_index]? with
  | none => left; simp [stepState, processToolCall, handleDelete, hce]
  | some email =>
    cases hg : ext.gmailOk with
    | false => left; simp [stepState, processToolCall, handleDelete, hce, hg]
    | true =>
      cases hm : ext.mutOk with
      | false => left; simp [stepState, processToolCall, handleDelete, hce, hg, hm]
      | true => right; rw [stepState_delete_success db ext now email hce hg hm]

theorem stepState_star_session_cases (db : DBState) (ext : ExtBehavior) (now : Nat) :
    (stepState db ⟨.star_email, ext, now⟩).session = db.session ∨
    (stepState db ⟨.star_email, ext, now⟩).session = (moveToNextEmail db.session).1 := by
  cases hce : db.session.queue_snapshot[db.session.current_index]? with
  | none => left; simp [stepState, processToolCall, handleStar, hce]
  | some email =>
    cases hg : ext.gmailOk with
    | false => left; simp [stepState, processToolCall, handleStar, hce, hg]
    | true =>
      cases hm : ext.mutOk with
      | false => left; simp [stepState, processToolCall, handleStar, hce, hg, hm]
      | true => right; rw [stepState_star_success db ext now email hce hg hm]

theorem jsFindIndexAux_lt (p : QueueItem → Bool) :
    ∀ (l : List QueueItem) (base i : Nat),
      jsFindIndexAux p l base = some i → i < base + l.length := by
  intro l
  induction l with
  | nil => intro base i h; simp [jsFindIndexAux] at h
  | cons x xs ih =>
    intro base i h
    simp only [jsFindIndexAux] at h
    split at h
    · simp only [Option.some.injEq] at h
      simp only [List.length_cons]
      omega
    · have := ih (base + 1) i h
      simp only [List.length_cons]
      omega

theorem jsFindIndex_lt (p : QueueItem → Bool) (l : List QueueItem) (i : Nat)
    (h : jsFindIndex p l = some i) : i < l.length := by
  have := jsFindIndexAux_lt p l 0 i h
  omega

theorem stepState_undo_session_cases (db : DBState) (ext : ExtBehavior) (now : Nat) :
    (stepState db ⟨.undo_cmd, ext, now⟩).session = db.session ∨
    ∃ idx, idx < db.session.queue_snapshot.length ∧
      (stepState db ⟨.undo_cmd, ext, now⟩).session =
        { db.session with current_index := idx } := by
  simp only [stepState, processToolCall]
  cases hl : lookupUndo db.undo_actions db.session.id now with
  | none => left; simp [handleUndo, hl]
  | some row =>
    cases hg : ext.gmailOk with
    | false => left; simp [handleUndo, hl, hg]
    | true =>
      by_cases hrev : ((row.reverse_type == "unarchive" || row.reverse_type == "undelete" ||
          row.reverse_type == "unstar") && !ext.mutOk) = true
      · left; simp [handleUndo, hl, hg, hrev]
      · cases hfi : jsFindIndex (fun e => e.threadId == row.gmail_thread_id)
            db.session.queue_snapshot with
        | none => left; simp [handleUndo, hl, hg, hrev, hfi]
        | some idx =>
          right
          exact ⟨idx, jsFindIndex_lt _ _ _ hfi, by simp [handleUndo, hl, hg, hrev, hfi]⟩

theorem stepState_queue (db : DBState) (st : StepInput) :
    (stepState db st).session.queue_snapshot = db.session.queue_snapshot := by
  obtain ⟨cmd, ext, now⟩ := st
  cases cmd with
  | archive_email =>
    rcases stepState_archive_session_cases db ext now with h | h <;> rw [h]
    exact moveToNextEmail_queue _
  | delete_email =>
    rcases stepState_delete_session_cases db ext now with h | h <;> rw [h]
    exact moveToNextEmail_queue _
  | star_email =>
    rcases stepState_star_session_cases db ext now with h | h <;> rw [h]
    exact moveToNextEmail_queue _
  | skip_email =>
    rw [stepState_skip]
    exact moveToNextEmail_queue _
  | undo_cmd =>
    rcases stepState_undo_session_cases db ext now with h | ⟨idx, _, h⟩ <;> rw [h]
  | get_remaining_count => rw [stepState_remaining]
  | end_session => rw [stepState_endSession]
  | get_current_email => rw [stepState_getCurrent]

theorem stepState_completed (db : DBState) (st : StepInput)
    (h : db.session.status = "completed") :
    (stepState db st).session.status = "completed" := by
  obtain ⟨cmd, ext, now⟩ := st
  cases cmd with
  | archive_email =>
    rcases stepState_archive_session_cases db ext now with h1 | h1 <;> rw [h1]
    · exact h
    · exact moveToNextEmail_completed _ h
  | delete_email =>
    rcases stepState_delete_session_cases db ext now with h1 | h1 <;> rw [h1]
    · exact h
    · exact moveToNextEmail_completed _ h
  | star_email =>
    rcases stepState_star_session_cases db ext now with h1 | h1 <;> rw [h1]
    · exact h
    · exact moveToNextEmail_completed _ h
  | skip_email =>
    rw [stepState_skip]
    exact moveToNextEmail_completed _ h
  | undo_cmd =>
    rcases stepState_undo_session_cases db ext now with h1 | ⟨idx, _, h1⟩ <;> rw [h1]
    · exact h
    · exact h
  | get_remaining_count => rw [stepState_remaining]; exact h
  | end_session => rw [stepState_endSession]
  | get_current_email => rw [stepState_getCurrent]; exact h

theorem stepState_cursorOk (db : DBState) (st : StepInput)
    (h : cursorOk db.session) : cursorOk (stepState db st).session := by
  obtain ⟨cmd, ext, now⟩ := st
  cases cmd with
  | archive_email =>
    rcases stepState_archive_session_cases db ext now with h1 | h1 <;> rw [h1]
    · exact h
    · exact moveToNextEmail_cursorOk _
  | delete_email =>
    rcases stepState_delete_session_cases db ext now with h1 | h1 <;> rw [h1]
    · exact h
    · exact moveToNextEmail_cursorOk _
  | star_email =>
    rcases stepState_star_session_cases db ext now with h1 | h1 <;> rw [h1]
    · exact h
    · exact moveToNextEmail_cursorOk _
  | skip_email =>
    rw [stepState_skip]
    exact moveToNextEmail_cursorOk _
  | undo_cmd =>
    rcases stepState_undo_session_cases db ext now with h1 | ⟨idx, hidx, h1⟩ <;> rw [h1]
    · exact h
    · intro _
      exact Nat.le_of_lt hidx
  | get_remaining_count => rw [stepState_remaining]; exact h
  | end_session =>
    rw [stepState_endSession]
    intro hne
    exact absurd rfl hne
  | get_current_email => rw [stepState_getCurrent]; exact h

theorem runCommands_cursorOk (steps : List StepInput) :
    ∀ db : DBState, cursorOk db.session → cursorOk (runCommands db steps).session := by
  induction steps with
  | nil => intro db h; exact h
  | cons st rest ih =>
    intro db h
    exact ih (stepState db st) (stepState_cursorOk db st h)

theorem runCommands_queue (steps : List StepInput) :
    ∀ db : DBState,
      (runCommands db steps).session.queue_snapshot = db.session.queue_snapshot := by
  induction steps with
  | nil => intro db; rfl
  | cons st rest ih =>
    intro db
    rw [runCommands, List.foldl_cons, ← runCommands, ih (stepState db st),
      stepState_queue]

theorem runCommands_completed (steps : List StepInput) :
    ∀ db : DBState, db.session.status = "completed" →
      (runCommands db steps).session.status = "completed" := by
  induction steps with
  | nil => intro db h; exact h
  | cons st rest ih =>
    intro db h
    exact ih (stepState db st) (stepState_completed db st h)

/-- C1 (counterexample): from a fresh session with a one-item queue, one
skip brings the cursor to len(queue) = 1; a second skip pushes it to 2,
strictly beyond len(queue), so the cursor invariant of the claim fails. -/
theorem C1_counterexample :
    sampleDB1.session.queue_snapshot.length = 1 ∧
    (runCommands sampleDB1 [skipStep]).session.current_index = 1 ∧
    ¬ ((runCommands sampleDB1 [skipStep, skipStep]).session.current_index ≤
        (runCommands sampleDB1 [skipStep, skipStep]).session.queue_snapshot.length) := by
  decide

/-- C1 (amended): in every state reachable from a fresh session by
dispatcher commands, 0 ≤ current_index always holds, and
current_index ≤ len(queue) holds whenever status has not become
completed; once the session is completed a further advancing command
(such as skip at or past the end of the queue) can push the cursor
beyond len(queue). -/
theorem C1_cursor_invariant_amended (sid acct : String) (queue : List QueueItem)
    (steps : List StepInput) :
    0 ≤ (runCommands (freshDB sid acct queue) steps).session.current_index ∧
    cursorOk (runCommands (freshDB sid acct queue) steps).session := by
  refine ⟨Nat.zero_le _, ?_⟩
  apply runCommands_cursorOk
  intro _
  exact Nat.zero_le _

/-- C1 witness: a concrete instantiation of the amended invariant, with
the inner hypothesis (status not completed) discharged by evaluation. -/
theorem C1_cursor_invariant_amended_witness :
    (runCommands (freshDB "sess1" "acct" [item0, item1]) [skipStep]).session.current_index ≤
      (runCommands (freshDB "sess1" "acct" [item0, item1])
        [skipStep]).session.queue_snapshot.length :=
  (C1_cursor_invariant_amended "sess1" "acct" [item0, item1] [skipStep]).2 (by decide)

/-- C2 (counterexample): end_session makes the session completed with the
cursor still at 0; a subsequently dispatched skip still changes the
cursor, so completed is not terminal for the dispatcher. -/
theorem C2_counterexample :
    (stepState sampleDB1 endStep).session.status = "completed" ∧
    (stepState (stepState sampleDB1 endStep) skipStep).session.current_index ≠
      (stepState sampleDB1 endStep).session.current_index := by
  decide

/-- C2 (amended): for a session whose status is completed, subsequently
dispatched commands never change the queue snapshot and never move the
status away from completed; the dispatcher however does not block
commands on a completed session, and the cursor can still change (see
the counterexample). -/
theorem C2_completed_preservation (db : DBState) (steps : List StepInput)
    (h : db.session.status = "completed") :
    (runCommands db steps).session.status = "completed" ∧
    (runCommands db steps).session.queue_snapshot = db.session.queue_snapshot :=
  ⟨runCommands_completed steps db h, runCommands_queue steps db⟩

/-- C2 witness: concrete instantiation on a completed session. -/
theorem C2_completed_preservation_witness :
    (runCommands (stepState sampleDB1 endStep) [skipStep]).session.status = "completed" ∧
    (runCommands (stepState sampleDB1 endStep) [skipStep]).session.queue_snapshot =
      (stepState sampleDB1 endStep).session.queue_snapshot :=
  C2_completed_preservation (stepState sampleDB1 endStep) [skipStep] (by decide)

/-- C3: whenever the external mutator call of a command throws, the
dispatcher catches it, answers with the fixed try-again failure result,
and leaves the whole database state (session fields and undo ledger)
exactly as it was. -/
theorem C3_mutator_failure_isolated (cmd : Command) (ext : ExtBehavior) (now : Nat)
    (db : DBState) (hm : ext.mutOk = false)
    (hinv : mutatorInvoked cmd ext now db = true) :
    processToolCall cmd ext now db =
      (db, ⟨.errorData "Action failed",
        "I\x27m sorry, that action failed. Please try again."⟩) := by
  cases cmd with
  | archive_email =>
    simp only [mutatorInvoked, Bool.and_eq_true, Option.isSome_iff_exists] at hinv
    obtain ⟨⟨email, hce⟩, hg⟩ := hinv
    simp [processToolCall, handleArchive, hce, hg, hm]
  | delete_email =>
    simp only [mutatorInvoked, Bool.and_eq_true, Option.isSome_iff_exists] at hinv
    obtain ⟨⟨email, hce⟩, hg⟩ := hinv
    simp [processToolCall, handleDelete, hce, hg, hm]
  | star_email =>
    simp only [mutatorInvoked, Bool.and_eq_true, Option.isSome_iff_exists] at hinv
    obtain ⟨⟨email, hce⟩, hg⟩ := hinv
    simp [processToolCall, handleStar, hce, hg, hm]
  | skip_email => simp [mutatorInvoked] at hinv
  | undo_cmd =>
    cases hl : lookupUndo db.undo_actions db.session.id now with
    | none => simp [mutatorInvoked, hl] at hinv
    | some row =>
      simp only [mutatorInvoked, hl, Bool.and_eq_true] at hinv
      obtain ⟨hg, hrev⟩ := hinv
      simp [processToolCall, handleUndo, hl, hg, hrev, hm]
  | get_remaining_count => simp [mutatorInvoked] at hinv
  | end_session => simp [mutatorInvoked] at hinv
  | get_current_email => simp [mutatorInvoked] at hinv

/-- C3 witness: a failing archive on a concrete fresh session. -/
theorem C3_mutator_failure_isolated_witness :
    processToolCall .archive_email ⟨true, false, none⟩ 0 sampleDB1 =
      (sampleDB1, ⟨.errorData "Action failed",
        "I\x27m sorry, that action failed. Please try again."⟩) :=
  C3_mutator_failure_isolated .archive_email ⟨true, false, none⟩ 0 sampleDB1 rfl (by decide)

theorem stepState_archive_noop (db : DBState) (ext : ExtBehavior) (now : Nat)
    (h : ext.gmailOk = false ∨ ext.mutOk = false ∨
      db.session.queue_snapshot[db.session.current_index]? = none) :
    stepState db ⟨.archive_email, ext, now⟩ = db := by
  cases hce : db.session.queue_snapshot[db.session.current_index]? with
  | none => simp [stepState, processToolCall, handleArchive, hce]
  | some email =>
    rcases h with hg | hm | hnone
    · simp [stepState, processToolCall, handleArchive, hce, hg]
    · cases hgv : ext.gmailOk with
      | false => simp [stepState, processToolCall, handleArchive, hce, hgv]
      | true => simp [stepState, processToolCall, handleArchive, hce, hgv, hm]
    · rw [hce] at hnone; cases hnone

theorem stepState_delete_noop (db : DBState) (ext : ExtBehavior) (now : Nat)
    (h : ext.gmailOk = false ∨ ext.mutOk = false ∨
      db.session.queue_snapshot[db.session.current_index]? = none) :
    stepState db ⟨.delete_email, ext, now⟩ = db := by
  cases hce : db.session.queue_snapshot[db.session.current_index]? with
  | none => simp [stepState, processToolCall, handleDelete, hce]
  | some email =>
    rcases h with hg | hm | hnone
    · simp [stepState, processToolCall, handleDelete, hce, hg]
    · cases hgv : ext.gmailOk with
      | false => simp [stepState, processToolCall, handleDelete, hce, hgv]
      | true => simp [stepState, processToolCall, handleDelete, hce, hgv, hm]
    · rw [hce] at hnone; cases hnone

theorem stepState_star_noop (db : DBState) (ext : ExtBehavior) (now : Nat)
    (h : ext.gmailOk = false ∨ ext.mutOk = false ∨
      db.session.queue_snapshot[db.session.current_index]? = none) :
    stepState db ⟨.star_email, ext, now⟩ = db := by
  cases hce : db.session.queue_snapshot[db.session.current_index]? with
  | none => simp [stepState, processToolCall, handleStar, hce]
  | some email =>
    rcases h with hg | hm | hnone
    · simp [stepState, processToolCall, handleStar, hce, hg]
    · cases hgv : ext.gmailOk with
      | false => simp [stepState, processToolCall, handleStar, hce, hgv]
      | true => simp [stepState, processToolCall, handleStar, hce, hgv, hm]
    · rw [hce] at hnone; cases hnone

/-- C9: skip never writes to the undo ledger; archive, delete and star
append exactly one entry when the external mutation succeeds and leave
the ledger unchanged when the command fails (mutation throw, missing
client, or empty current slot). -/
theorem C9_ledger_accounting (db : DBState) (ext : ExtBehavior) (now : Nat) :
    ((stepState db ⟨.skip_email, ext, now⟩).undo_actions = db.undo_actions) ∧
    (∀ email, db.session.queue_snapshot[db.session.current_index]? = some email →
      ext.gmailOk = true → ext.mutOk = true →
      (stepState db ⟨.archive_email, ext, now⟩).undo_actions =
        db.undo_actions ++ [⟨db.next_row_id, db.session.id, "archive", email.threadId,
          "unarchive", now, now + 15 * 1000⟩] ∧
      (stepState db ⟨.delete_email, ext, now⟩).undo_actions =
        db.undo_actions ++ [⟨db.next_row_id, db.session.id, "delete", email.threadId,
          "undelete", now, now + 15 * 1000⟩] ∧
      (stepState db ⟨.star_email, ext, now⟩).undo_actions =
        db.undo_actions ++ [⟨db.next_row_id, db.session.id, "star", email.threadId,
          "unstar", now, now + 15 * 1000⟩]) ∧
    ((ext.gmailOk = false ∨ ext.mutOk = false ∨
        db.session.queue_snapshot[db.session.current_index]? = none) →
      (stepState db ⟨.archive_email, ext, now⟩).undo_actions = db.undo_actions ∧
      (stepState db ⟨.delete_email, ext, now⟩).undo_actions = db.undo_actions ∧
      (stepState db ⟨.star_email, ext, now⟩).undo_actions = db.undo_actions) := by
  refine ⟨rfl, ?_, ?_⟩
  · intro email hce hg hmu
    rw [stepState_archive_success db ext now email hce hg hmu,
      stepState_delete_success db ext now email hce hg hmu,
      stepState_star_success db ext now email hce hg hmu]
    exact ⟨rfl, rfl, rfl⟩
  · intro h
    rw [stepState_archive_noop db ext now h, stepState_delete_noop db ext now h,
      stepState_star_noop db ext now h]
    exact ⟨rfl, rfl, rfl⟩

/-- C9 witness: concrete success instantiation on a fresh session. -/
theorem C9_ledger_accounting_witness :
    (stepState sampleDB1 ⟨.archive_email, okExt, 7⟩).undo_actions =
      sampleDB1.undo_actions ++
        [⟨sampleDB1.next_row_id, sampleDB1.session.id, "archive", item0.threadId,
          "unarchive", 7, 7 + 15 * 1000⟩] :=
  ((C9_ledger_accounting sampleDB1 okExt 7).2.1 item0 (by decide) rfl rfl).1

theorem advanceN_active (k : Nat) :
    ∀ s : SessionData, s.status = "active" →
      s.current_index + k < s.queue_snapshot.length →
      (advanceN k s).current_index = s.current_index + k ∧
      (advanceN k s).status = "active" ∧
      (advanceN k s).queue_snapshot = s.queue_snapshot := by
  induction k with
  | zero => intro s hs _; exact ⟨rfl, hs, rfl⟩
  | succ k ih =>
    intro s hs hlt
    have hmove : (moveToNextEmail s).1 = { s with current_index := s.current_index + 1 } := by
      simp only [moveToNextEmail]
      rw [if_neg (by omega)]
    have hunfold : advanceN (k + 1) s =
        advanceN k { s with current_index := s.current_index + 1 } := by
      rw [← hmove]; rfl
    rw [hunfold]
    have h := ih { s with current_index := s.current_index + 1 } hs
      (show s.current_index + 1 + k < s.queue_snapshot.length by omega)
    obtain ⟨h1, h2, h3⟩ := h
    refine ⟨?_, h2, h3⟩
    rw [h1]
    show s.current_index + 1 + k = s.current_index + (k + 1)
    omega

theorem advanceN_add (a b : Nat) : ∀ s : SessionData,
    advanceN (a + b) s = advanceN b (advanceN a s) := by
  induction a with
  | zero => intro s; rw [Nat.zero_add]; rfl
  | succ a ih =>
    intro s
    have hab : a + 1 + b = (a + b) + 1 := by omega
    rw [hab]
    show advanceN (a + b) (moveToNextEmail s).1 = advanceN b (advanceN (a + 1) s)
    rw [ih]
    rfl

/-- C8: from a session with a non-empty queue, active status and cursor
0, calling advance (moveToNextEmail) exactly len(queue) times moves the
cursor by one each time (cursor = k after k calls), keeps the status
active through the first len(queue) - 1 calls, and makes the status
completed, with cursor = len(queue), on the final call. -/
theorem C8_advance_completes (s : SessionData) (h0 : s.current_index = 0)
    (hs : s.status = "active") (hlen : 1 ≤ s.queue_snapshot.length) :
    (∀ k, k < s.queue_snapshot.length →
      (advanceN k s).current_index = k ∧ (advanceN k s).status = "active") ∧
    (advanceN s.queue_snapshot.length s).current_index = s.queue_snapshot.length ∧
    (advanceN s.queue_snapshot.length s).status = "completed" := by
  constructor
  · intro k hk
    have h := advanceN_active k s hs (by omega)
    exact ⟨by rw [h.1, h0]; omega, h.2.1⟩
  · obtain ⟨m, hm⟩ : ∃ m, s.queue_snapshot.length = m + 1 :=
      ⟨s.queue_snapshot.length - 1, by omega⟩
    have hmid := advanceN_active m s hs (by omega)
    obtain ⟨hci, hst, hq⟩ := hmid
    have hone : advanceN 1 (advanceN m s) = (moveToNextEmail (advanceN m s)).1 := rfl
    rw [hm, advanceN_add m 1, hone]
    have hbranch : (advanceN m s).current_index + 1 ≥ (advanceN m s).queue_snapshot.length := by
      rw [hci, hq, h0]
      omega
    constructor
    · rw [moveToNextEmail_current_index, hci, h0]
      omega
    · simp only [moveToNextEmail]
      rw [if_pos hbranch]

/-- C8 witness: a concrete two-item queue run to completion. -/
theorem C8_advance_completes_witness :
    (advanceN 1 sampleDB2.session).current_index = 1 ∧
    (advanceN 1 sampleDB2.session).status = "active" ∧
    (advanceN 2 sampleDB2.session).current_index = 2 ∧
    (advanceN 2 sampleDB2.session).status = "completed" := by
  have h := C8_advance_completes sampleDB2.session rfl rfl (by decide)
  exact ⟨(h.1 1 (by decide)).1, (h.1 1 (by decide)).2, h.2.1, h.2.2⟩

theorem getElem?_append_cons {α : Type} (l₁ l₂ : List α) (e : α) :
    (l₁ ++ e :: l₂)[l₁.length]? = some e := by
  induction l₁ with
  | nil => simp
  | cons x xs ih => simpa using ih

theorem jsFindIndexAux_append (p : QueueItem → Bool) (l₁ : List QueueItem)
    (e : QueueItem) (l₂ : List QueueItem) (h₁ : ∀ x ∈ l₁, p x = false)
    (he : p e = true) :
    ∀ base, jsFindIndexAux p (l₁ ++ e :: l₂) base = some (base + l₁.length) := by
  induction l₁ with
  | nil =>
    intro base
    simp [jsFindIndexAux, he]
  | cons x xs ih =>
    intro base
    have hx : p x = false := h₁ x (List.mem_cons_self x xs)
    have ih2 := ih (fun y hy => h₁ y (List.mem_cons_of_mem x hy)) (base + 1)
    have harith : base + 1 + xs.length = base + (x :: xs).length := by
      simp only [List.length_cons]
      omega
    simp only [List.cons_append, jsFindIndexAux, hx, Bool.false_eq_true, if_false,
      List.append_eq]
    rw [ih2, harith]

theorem jsFindIndex_append (p : QueueItem → Bool) (l₁ : List QueueItem)
    (e : QueueItem) (l₂ : List QueueItem) (h₁ : ∀ x ∈ l₁, p x = false)
    (he : p e = true) :
    jsFindIndex p (l₁ ++ e :: l₂) = some l₁.length := by
  have := jsFindIndexAux_append p l₁ e l₂ h₁ he 0
  simpa [jsFindIndex] using this

theorem stepState_undo_success (db : DBState) (ext : ExtBehavior) (now : Nat)
    (row : UndoRow) (idx : Nat)
    (hl : lookupUndo db.undo_actions db.session.id now = some row)
    (hg : ext.gmailOk = true) (hm : ext.mutOk = true)
    (hfi : jsFindIndex (fun e => e.threadId == row.gmail_thread_id)
      db.session.queue_snapshot = some idx) :
    stepState db ⟨.undo_cmd, ext, now⟩ =
      { session := { db.session with current_index := idx },
        undo_actions := db.undo_actions.filter (fun a => a.rowId != row.rowId),
        next_row_id := db.next_row_id } := by
  simp [stepState, processToolCall, handleUndo, hl, hg, hm, hfi]

theorem processToolCall_undo_none (db : DBState) (ext : ExtBehavior) (now : Nat)
    (hl : lookupUndo db.undo_actions db.session.id now = none) :
    processToolCall .undo_cmd ext now db =
      (db, ⟨.successFlag false, "Nothing to undo. The undo window may have expired."⟩) := by
  simp [processToolCall, handleUndo, hl]

/-- C5: after a successful archive (from an empty ledger), undo inside
the 15 second window reverses it: the single ledger entry written by the
archive is removed and the cursor returns to the original
position, while undo with no unexpired entry (in particular after the
window has passed) answers the fixed nothing-to-undo message and changes
neither the cursor nor the ledger. -/
theorem C5_archive_undo (sid acct st : String) (q₁ q₂ : List Webhook.QueueItem)
    (e : Webhook.QueueItem) (rid t₁ t₂ : Nat) (ext₁ ext₂ : ExtBehavior) (db₁ : DBState)
    (hnd : ((q₁ ++ e :: q₂).map QueueItem.threadId).Nodup)
    (hg1 : ext₁.gmailOk = true) (hm1 : ext₁.mutOk = true)
    (hg2 : ext₂.gmailOk = true) (hm2 : ext₂.mutOk = true)
    (hdb1 : db₁ = stepState ⟨⟨sid, acct, st, q₁ ++ e :: q₂, q₁.length⟩, [], rid⟩
      ⟨.archive_email, ext₁, t₁⟩)
    (hwin : t₂ < t₁ + 15 * 1000) :
    db₁.session.current_index = q₁.length + 1 ∧
    db₁.undo_actions = [⟨rid, sid, "archive", e.threadId, "unarchive", t₁, t₁ + 15 * 1000⟩] ∧
    (stepState db₁ ⟨.undo_cmd, ext₂, t₂⟩).session.current_index = q₁.length ∧
    (stepState db₁ ⟨.undo_cmd, ext₂, t₂⟩).undo_actions = [] ∧
    (∀ (db : DBState) (ext : ExtBehavior) (now : Nat),
      lookupUndo db.undo_actions db.session.id now = none →
      processToolCall .undo_cmd ext now db =
        (db, ⟨.successFlag false, "Nothing to undo. The undo window may have expired."⟩)) ∧
    (∀ t₃, t₁ + 15 * 1000 ≤ t₃ → stepState db₁ ⟨.undo_cmd, ext₂, t₃⟩ = db₁) := by
  have hce : (⟨⟨sid, acct, st, q₁ ++ e :: q₂, q₁.length⟩, [], rid⟩ :
      DBState).session.queue_snapshot[(⟨⟨sid, acct, st, q₁ ++ e :: q₂, q₁.length⟩, [],
        rid⟩ : DBState).session.current_index]? = some e :=
    getElem?_append_cons q₁ q₂ e
  have hdb1e : db₁ =
      { session := (moveToNextEmail ⟨sid, acct, st, q₁ ++ e :: q₂, q₁.length⟩).1,
        undo_actions := [⟨rid, sid, "archive", e.threadId, "unarchive", t₁,
          t₁ + 15 * 1000⟩],
        next_row_id := rid + 1 } := by
    rw [hdb1, stepState_archive_success _ ext₁ t₁ e hce hg1 hm1]
    rfl
  have hid : db₁.session.id = sid := by rw [hdb1e]; exact moveToNextEmail_id _
  have hqueue : db₁.session.queue_snapshot = q₁ ++ e :: q₂ := by
    rw [hdb1e]; exact moveToNextEmail_queue _
  have hci : db₁.session.current_index = q₁.length + 1 := by
    rw [hdb1e]; exact moveToNextEmail_current_index _
  have hrow : db₁.undo_actions =
      [⟨rid, sid, "archive", e.threadId, "unarchive", t₁, t₁ + 15 * 1000⟩] := by
    rw [hdb1e]
  have hlu : lookupUndo db₁.undo_actions db₁.session.id t₂ =
      some ⟨rid, sid, "archive", e.threadId, "unarchive", t₁, t₁ + 15 * 1000⟩ := by
    rw [hrow, hid]
    simp [lookupUndo, hwin]
  have hpred : ∀ x ∈ q₁, (fun y : QueueItem => y.threadId == e.threadId) x = false := by
    intro x hx
    have hmap : (q₁.map QueueItem.threadId ++
        e.threadId :: q₂.map QueueItem.threadId).Nodup := by
      simpa using hnd
    rw [List.nodup_append] at hmap
    have hdisj := hmap.2.2
    have : x.threadId ∉ e.threadId :: q₂.map QueueItem.threadId :=
      hdisj (List.mem_map_of_mem QueueItem.threadId hx)
    simp only [List.mem_cons, not_or] at this
    simpa using this.1
  have hfi : jsFindIndex (fun y : QueueItem => y.threadId == e.threadId)
      (q₁ ++ e :: q₂) = some q₁.length :=
    jsFindIndex_append _ q₁ e q₂ hpred (by simp)
  have hfi2 : jsFindIndex (fun y : QueueItem => y.threadId ==
      (⟨rid, sid, "archive", e.threadId, "unarchive", t₁, t₁ + 15 * 1000⟩ :
        UndoRow).gmail_thread_id) db₁.session.queue_snapshot = some q₁.length := by
    rw [hqueue]
    exact hfi
  have hundo := stepState_undo_success db₁ ext₂ t₂ _ q₁.length hlu hg2 hm2 hfi2
  refine ⟨hci, hrow, ?_, ?_, ?_, ?_⟩
  · rw [hundo]
  · rw [hundo, hrow]
    simp
  · intro db ext now hl
    exact processToolCall_undo_none db ext now hl
  · intro t₃ ht₃
    have hc : decide (t₃ < t₁ + 15 * 1000) = false := by
      simp only [decide_eq_false_iff_not]
      omega
    have hnone : lookupUndo db₁.undo_actions db₁.session.id t₃ = none := by
      rw [hrow, hid]
      simp [lookupUndo, hc]
    show (processToolCall .undo_cmd ext₂ t₃ db₁).1 = db₁
    rw [processToolCall_undo_none db₁ ext₂ t₃ hnone]

/-- C5 witness: single-item queue, archive at t=0, undo at t=5000 and a
late undo at t=20000. -/
theorem C5_archive_undo_witness :
    (stepState (stepState ⟨⟨"sess1", "acct", "active", [item0], 0⟩, [], 0⟩
        ⟨.archive_email, okExt, 0⟩) ⟨.undo_cmd, okExt, 5000⟩).session.current_index = 0 ∧
    (stepState (stepState ⟨⟨"sess1", "acct", "active", [item0], 0⟩, [], 0⟩
        ⟨.archive_email, okExt, 0⟩) ⟨.undo_cmd, okExt, 5000⟩).undo_actions = [] ∧
    (stepState (stepState ⟨⟨"sess1", "acct", "active", [item0], 0⟩, [], 0⟩
        ⟨.archive_email, okExt, 0⟩) ⟨.undo_cmd, okExt, 20000⟩) =
      stepState ⟨⟨"sess1", "acct", "active", [item0], 0⟩, [], 0⟩
        ⟨.archive_email, okExt, 0⟩ := by
  have h := C5_archive_undo "sess1" "acct" "active" [] [] item0 0 0 5000 okExt okExt
    (stepState ⟨⟨"sess1", "acct", "active", [item0], 0⟩, [], 0⟩ ⟨.archive_email, okExt, 0⟩)
    (by decide) rfl rfl rfl rfl rfl (by decide)
  exact ⟨h.2.2.1, h.2.2.2.1, h.2.2.2.2.2 20000 (by decide)⟩

end Webhook


namespace Mapping

theorem fuzzyStep_cases (sh : SuperhumanThread) (used : List String)
    (acc : Option GmailThread × ℚ) (g₀ : GmailThread) :
    (used.contains g₀.threadId = true ∧ fuzzyStep sh used acc g₀ = acc) ∨
    (used.contains g₀.threadId = false ∧
      ¬(fuzzyScore sh g₀ > acc.2 ∧ fuzzyScore sh g₀ > 1/2) ∧
      fuzzyStep sh used acc g₀ = acc) ∨
    (used.contains g₀.threadId = false ∧
      fuzzyScore sh g₀ > acc.2 ∧ fuzzyScore sh g₀ > 1/2 ∧
      fuzzyStep sh used acc g₀ = (some g₀, fuzzyScore sh g₀)) := by
  cases hcon : used.contains g₀.threadId with
  | true =>
    left
    refine ⟨rfl, ?_⟩
    simp only [fuzzyStep]
    rw [hcon]
    rfl
  | false =>
    by_cases hs : fuzzyScore sh g₀ > acc.2 ∧ fuzzyScore sh g₀ > 1/2
    · right; right
      refine ⟨rfl, hs.1, hs.2, ?_⟩
      simp only [fuzzyStep]
      rw [hcon]
      exact if_pos hs
    · right; left
      refine ⟨rfl, hs, ?_⟩
      simp only [fuzzyStep]
      rw [hcon]
      exact if_neg hs

theorem fuzzyStep_inv (sh : SuperhumanThread) (used : List String)
    (acc : Option GmailThread × ℚ) (g₀ : GmailThread)
    (hsome : ∀ g, acc.1 = some g → used.contains g.threadId = false ∧
      fuzzyScore sh g = acc.2 ∧ (1:ℚ)/2 < acc.2)
    (hnone : acc.1 = none → acc.2 = 0) :
    (∀ g, (fuzzyStep sh used acc g₀).1 = some g →
      used.contains g.threadId = false ∧
      fuzzyScore sh g = (fuzzyStep sh used acc g₀).2 ∧
      (1:ℚ)/2 < (fuzzyStep sh used acc g₀).2) ∧
    ((fuzzyStep sh used acc g₀).1 = none → (fuzzyStep sh used acc g₀).2 = 0) := by
  rcases fuzzyStep_cases sh used acc g₀ with ⟨_, hstep⟩ | ⟨_, _, hstep⟩ |
      ⟨hcon, _, hthr, hstep⟩ <;> rw [hstep]
  · exact ⟨hsome, hnone⟩
  · exact ⟨hsome, hnone⟩
  · constructor
    · intro g hg
      obtain rfl : g₀ = g := by injection hg
      exact ⟨hcon, rfl, hthr⟩
    · intro h
      cases h

theorem fuzzyFold_inv (sh : SuperhumanThread) (used : List String) :
    ∀ (gs : List GmailThread) (acc : Option GmailThread × ℚ),
      (∀ g, acc.1 = some g → used.contains g.threadId = false ∧
        fuzzyScore sh g = acc.2 ∧ (1:ℚ)/2 < acc.2) →
      (acc.1 = none → acc.2 = 0) →
      (∀ g, (gs.foldl (fuzzyStep sh used) acc).1 = some g →
        used.contains g.threadId = false ∧
        fuzzyScore sh g = (gs.foldl (fuzzyStep sh used) acc).2 ∧
        (1:ℚ)/2 < (gs.foldl (fuzzyStep sh used) acc).2) ∧
      ((gs.foldl (fuzzyStep sh used) acc).1 = none →
        (gs.foldl (fuzzyStep sh used) acc).2 = 0) := by
  intro gs
  induction gs with
  | nil => intro acc hsome hnone; exact ⟨hsome, hnone⟩
  | cons g₀ rest ih =>
    intro acc hsome hnone
    rw [List.foldl_cons]
    have h := fuzzyStep_inv sh used acc g₀ hsome hnone
    exact ih (fuzzyStep sh used acc g₀) h.1 h.2

theorem fuzzyFold_mono (sh : SuperhumanThread) (used : List String) :
    ∀ (gs : List GmailThread) (acc : Option GmailThread × ℚ),
      acc.2 ≤ (gs.foldl (fuzzyStep sh used) acc).2 := by
  intro gs
  induction gs with
  | nil => intro acc; exact le_refl _
  | cons g₀ rest ih =>
    intro acc
    rw [List.foldl_cons]
    have hstep : acc.2 ≤ (fuzzyStep sh used acc g₀).2 := by
      rcases fuzzyStep_cases sh used acc g₀ with ⟨_, hstep⟩ | ⟨_, _, hstep⟩ |
          ⟨_, hgt, _, hstep⟩ <;> rw [hstep]
      exact le_of_lt hgt
    exact le_trans hstep (ih (fuzzyStep sh used acc g₀))

theorem fuzzyFold_isSome (sh : SuperhumanThread) (used : List String) :
    ∀ (gs : List GmailThread) (acc : Option GmailThread × ℚ),
      acc.1.isSome = true → ((gs.foldl (fuzzyStep sh used) acc).1).isSome = true := by
  intro gs
  induction gs with
  | nil => intro acc h; exact h
  | cons g₀ rest ih =>
    intro acc h
    rw [List.foldl_cons]
    apply ih
    rcases fuzzyStep_cases sh used acc g₀ with ⟨_, hstep⟩ | ⟨_, _, hstep⟩ |
        ⟨_, _, _, hstep⟩ <;> rw [hstep]
    · exact h
    · exact h
    · rfl

theorem fuzzyFold_none_bound (sh : SuperhumanThread) (used : List String) :
    ∀ (gs : List GmailThread) (acc : Option GmailThread × ℚ),
      (∀ g, acc.1 = some g → used.contains g.threadId = false ∧
        fuzzyScore sh g = acc.2 ∧ (1:ℚ)/2 < acc.2) →
      (acc.1 = none → acc.2 = 0) →
      (gs.foldl (fuzzyStep sh used) acc).1 = none →
      ∀ g' ∈ gs, used.contains g'.threadId = false → fuzzyScore sh g' ≤ 1/2 := by
  intro gs
  induction gs with
  | nil =>
    intro acc _ _ _ g' hg'
    cases hg'
  | cons g₀ rest ih =>
    intro acc hsome hnone hfin g' hg' hcon'
    rw [List.foldl_cons] at hfin
    have hinv := fuzzyStep_inv sh used acc g₀ hsome hnone
    rcases List.mem_cons.mp hg' with rfl | hmem
    · rcases fuzzyStep_cases sh used acc g' with ⟨hcon, hstep⟩ | ⟨_, hrej, hstep⟩ |
          ⟨_, _, _, hstep⟩
      · rw [hcon] at hcon'
        cases hcon'
      · rw [hstep] at hfin
        have haccnone : acc.1 = none := by
          cases hacc : acc.1 with
          | none => rfl
          | some gg =>
            have := fuzzyFold_isSome sh used rest acc (by rw [hacc]; rfl)
            rw [hfin] at this
            cases this
        have hacc0 : acc.2 = 0 := hnone haccnone
        rcases not_and_or.mp hrej with h | h
        · have := not_lt.mp h
          rw [hacc0] at this
          linarith
        · exact not_lt.mp h
      · rw [hstep] at hfin
        have := fuzzyFold_isSome sh used rest (some g', fuzzyScore sh g') rfl
        rw [hfin] at this
        cases this
    · exact ih (fuzzyStep sh used acc g₀) hinv.1 hinv.2 hfin g' hmem hcon'

end Mapping

namespace Mapping

theorem fuzzyFold_max (sh : SuperhumanThread) (used : List String) :
    ∀ (gs : List GmailThread) (acc : Option GmailThread × ℚ),
      (∀ g, acc.1 = some g → used.contains g.threadId = false ∧
        fuzzyScore sh g = acc.2 ∧ (1:ℚ)/2 < acc.2) →
      (acc.1 = none → acc.2 = 0) →
      ∀ g, (gs.foldl (fuzzyStep sh used) acc).1 = some g →
      ∀ g' ∈ gs, used.contains g'.threadId = false →
        fuzzyScore sh g' ≤ (gs.foldl (fuzzyStep sh used) acc).2 := by
  intro gs
  induction gs with
  | nil =>
    intro acc _ _ g _ g' hg'
    cases hg'
  | cons g₀ rest ih =>
    intro acc hsome hnone g hfin g' hg' hcon'
    rw [List.foldl_cons] at hfin ⊢
    have hinv := fuzzyStep_inv sh used acc g₀ hsome hnone
    rcases List.mem_cons.mp hg' with rfl | hmem
    · rcases fuzzyStep_cases sh used acc g' with ⟨hcon, hstep⟩ | ⟨_, hrej, hstep⟩ |
          ⟨_, _, _, hstep⟩
      · rw [hcon] at hcon'
        cases hcon'
      · rw [hstep] at hfin ⊢
        rcases not_and_or.mp hrej with h | h
        · exact le_trans (not_lt.mp h) (fuzzyFold_mono sh used rest acc)
        · have hfinal := (fuzzyFold_inv sh used rest acc hsome hnone).1 g hfin
          exact le_trans (not_lt.mp h) (le_of_lt hfinal.2.2)
      · rw [hstep] at hfin ⊢
        have : (some g', fuzzyScore sh g').2 ≤
            (rest.foldl (fuzzyStep sh used) (some g', fuzzyScore sh g')).2 :=
          fuzzyFold_mono sh used rest _
        exact this
    · exact ih (fuzzyStep sh used acc g₀) hinv.1 hinv.2 g hfin g' hmem hcon'

theorem fuzzyFold_first (sh : SuperhumanThread) (used : List String) :
    ∀ (gs : List GmailThread) (acc : Option GmailThread × ℚ),
      (∀ g, acc.1 = some g → used.contains g.threadId = false ∧
        fuzzyScore sh g = acc.2 ∧ (1:ℚ)/2 < acc.2) →
      (acc.1 = none → acc.2 = 0) →
      ∀ g, (gs.foldl (fuzzyStep sh used) acc).1 = some g →
      (acc.1 = some g ∧ acc.2 = (gs.foldl (fuzzyStep sh used) acc).2) ∨
      (∃ pre post, gs = pre ++ g :: post ∧ used.contains g.threadId = false ∧
        acc.2 < fuzzyScore sh g ∧
        fuzzyScore sh g = (gs.foldl (fuzzyStep sh used) acc).2 ∧
        ∀ g' ∈ pre, used.contains g'.threadId = false →
          fuzzyScore sh g' < fuzzyScore sh g) := by
  intro gs
  induction gs with
  | nil =>
    intro acc _ _ g hfin
    exact Or.inl ⟨hfin, rfl⟩
  | cons g₀ rest ih =>
    intro acc hsome hnone g hfin
    rw [List.foldl_cons] at hfin ⊢
    have hinv := fuzzyStep_inv sh used acc g₀ hsome hnone
    rcases fuzzyStep_cases sh used acc g₀ with ⟨hcon, hstep⟩ | ⟨hcon, hrej, hstep⟩ |
        ⟨hcon, hgt, hthr, hstep⟩
    · rw [hstep] at hfin ⊢
      rcases ih acc hsome hnone g hfin with h | ⟨pre, post, hgs, hcg, hlt, heq, hall⟩
      · exact Or.inl h
      · refine Or.inr ⟨g₀ :: pre, post, by rw [hgs, List.cons_append], hcg, hlt, heq, ?_⟩
        intro g' hg' hcon'
        rcases List.mem_cons.mp hg' with rfl | hmem
        · rw [hcon] at hcon'
          cases hcon'
        · exact hall g' hmem hcon'
    · rw [hstep] at hfin ⊢
      rcases ih acc hsome hnone g hfin with h | ⟨pre, post, hgs, hcg, hlt, heq, hall⟩
      · exact Or.inl h
      · refine Or.inr ⟨g₀ :: pre, post, by rw [hgs, List.cons_append], hcg, hlt, heq, ?_⟩
        intro g' hg' hcon'
        rcases List.mem_cons.mp hg' with rfl | hmem
        · rcases not_and_or.mp hrej with h | h
          · exact lt_of_le_of_lt (not_lt.mp h) hlt
          · have hfinal := (fuzzyFold_inv sh used rest acc hsome hnone).1 g hfin
            rw [heq]
            exact lt_of_le_of_lt (not_lt.mp h) hfinal.2.2
        · exact hall g' hmem hcon'
    · rw [hstep] at hfin hinv ⊢
      rcases ih (some g₀, fuzzyScore sh g₀) hinv.1 hinv.2 g hfin with
        ⟨h1, h2⟩ | ⟨pre, post, hgs, hcg, hlt, heq, hall⟩
      · obtain rfl : g₀ = g := by injection h1
        refine Or.inr ⟨[], rest, rfl, hcon, ?_, ?_, ?_⟩
        · exact hgt
        · exact h2
        · intro g' hg'
          cases hg'
      · refine Or.inr ⟨g₀ :: pre, post, by rw [hgs, List.cons_append], hcg, ?_, heq, ?_⟩
        · exact lt_trans hgt hlt
        · intro g' hg' hcon'
          rcases List.mem_cons.mp hg' with rfl | hmem
          · exact hlt
          · exact hall g' hmem hcon'

end Mapping

namespace Mapping

theorem nodup_length_le {α : Type} [DecidableEq α] (l l2 : List α) (h : l.Nodup)
    (hsub : ∀ x ∈ l, x ∈ l2) : l.length ≤ l2.length := by
  have h1 : l.toFinset.card = l.length := List.toFinset_card_of_nodup h
  have h2 : l.toFinset ⊆ l2.toFinset := by
    intro x hx
    simp only [List.mem_toFinset] at hx ⊢
    exact hsub x hx
  have h3 := Finset.card_le_card h2
  have h4 := l2.toFinset_card_le
  omega

theorem similarity_nonneg (a b : String) : 0 ≤ similarity a b := by
  simp only [similarity]
  split
  · norm_num
  · split
    · exact le_refl 0
    · exact div_nonneg (Nat.cast_nonneg _) (Nat.cast_nonneg _)

theorem similarity_le_one (a b : String) : similarity a b ≤ 1 := by
  simp only [similarity]
  split
  · exact le_refl 1
  · split
    · norm_num
    next h2 =>
      push_neg at h2
      obtain ⟨ha, hb⟩ := h2
      have hna : (tokenSet a).Nodup := List.nodup_dedup _
      have hnb : (tokenSet b).Nodup := List.nodup_dedup _
      have hflt : ((tokenSet a).filter
          (fun w => (tokenSet b).contains w)).length ≤ (tokenSet a).length :=
        List.length_filter_le _ _
      have hsubb : ((tokenSet a).filter
          (fun w => (tokenSet b).contains w)).length ≤ (tokenSet b).length := by
        apply nodup_length_le _ _ (hna.filter _)
        intro x hx
        have := (List.mem_filter.mp hx).2
        simpa using this
      have hmin : ((tokenSet a).filter
          (fun w => (tokenSet b).contains w)).length ≤
            min (tokenSet a).length (tokenSet b).length :=
        le_min hflt hsubb
      have hminpos : 0 < min (tokenSet a).length (tokenSet b).length := by
        have hpa : 0 < (tokenSet a).length := Nat.pos_of_ne_zero ha
        have hpb : 0 < (tokenSet b).length := Nat.pos_of_ne_zero hb
        omega
      rw [div_le_one (by exact_mod_cast hminpos)]
      exact_mod_cast hmin

theorem fuzzyScore_le_one (sh : SuperhumanThread) (g : GmailThread) :
    fuzzyScore sh g ≤ 1 := by
  unfold fuzzyScore
  have h1 := similarity_le_one sh.subject g.subject
  have h2 := similarity_le_one (extractEmail sh.sender) g.senderEmail
  have h3 := similarity_nonneg sh.subject g.subject
  have h4 := similarity_nonneg (extractEmail sh.sender) g.senderEmail
  linarith

theorem fuzzyFold_le_one (sh : SuperhumanThread) (used : List String) :
    ∀ (gs : List GmailThread) (acc : Option GmailThread × ℚ),
      acc.2 ≤ 1 → (gs.foldl (fuzzyStep sh used) acc).2 ≤ 1 := by
  intro gs
  induction gs with
  | nil => intro acc h; exact h
  | cons g₀ rest ih =>
    intro acc h
    rw [List.foldl_cons]
    apply ih
    rcases fuzzyStep_cases sh used acc g₀ with ⟨_, hstep⟩ | ⟨_, _, hstep⟩ |
        ⟨_, _, _, hstep⟩ <;> rw [hstep]
    · exact h
    · exact h
    · exact fuzzyScore_le_one sh g₀

theorem mapStep_cases (gs : List GmailThread) (acc : List MappedThread × List String)
    (sh : SuperhumanThread) :
    (∃ g, gs.find? (fun g => g.threadId == sh.superhumanThreadId &&
        !(acc.2.contains g.threadId)) = some g ∧ sh.superhumanThreadId ≠ "" ∧
      mapStep gs acc sh =
        (acc.1 ++ [⟨sh.position, sh, some g, 1, "exact"⟩], acc.2 ++ [g.threadId])) ∨
    (∃ g, (fuzzyScan sh acc.2 gs).1 = some g ∧
      mapStep gs acc sh =
        (acc.1 ++ [⟨sh.position, sh, some g, (fuzzyScan sh acc.2 gs).2, "fuzzy"⟩],
          acc.2 ++ [g.threadId])) ∨
    ((fuzzyScan sh acc.2 gs).1 = none ∧
      mapStep gs acc sh =
        (acc.1 ++ [⟨sh.position, sh, none, (fuzzyScan sh acc.2 gs).2, "none"⟩], acc.2)) := by
  by_cases hid : sh.superhumanThreadId ≠ ""
  · cases hfind : gs.find? (fun g => g.threadId == sh.superhumanThreadId &&
        !(acc.2.contains g.threadId)) with
    | some g =>
      left
      refine ⟨g, rfl, hid, ?_⟩
      simp only [mapStep]
      rw [if_pos hid, hfind]
    | none =>
      cases hscan : (fuzzyScan sh acc.2 gs).1 with
      | some g =>
        right; left
        refine ⟨g, rfl, ?_⟩
        simp only [mapStep]
        rw [if_pos hid, hfind, hscan]
      | none =>
        right; right
        refine ⟨rfl, ?_⟩
        simp only [mapStep]
        rw [if_pos hid, hfind, hscan]
  · cases hscan : (fuzzyScan sh acc.2 gs).1 with
    | some g =>
      right; left
      refine ⟨g, rfl, ?_⟩
      simp only [mapStep]
      rw [if_neg hid, hscan]
    | none =>
      right; right
      refine ⟨rfl, ?_⟩
      simp only [mapStep]
      rw [if_neg hid, hscan]

theorem matchedIds_append_some (l : List MappedThread) (pos : Nat)
    (sh : SuperhumanThread) (g : GmailThread) (conf : ℚ) (meth : String) :
    matchedIds (l ++ [⟨pos, sh, some g, conf, meth⟩]) = matchedIds l ++ [g.threadId] := by
  simp [matchedIds]

theorem matchedIds_append_none (l : List MappedThread) (pos : Nat)
    (sh : SuperhumanThread) (conf : ℚ) (meth : String) :
    matchedIds (l ++ [⟨pos, sh, none, conf, meth⟩]) = matchedIds l := by
  simp [matchedIds]

end Mapping

namespace Mapping

theorem contains_false_not_mem {l : List String} {a : String}
    (h : l.contains a = false) : a ∉ l := by
  simpa using h

theorem mapFold_used (gs : List GmailThread) (shs : List SuperhumanThread) :
    ∀ acc : List MappedThread × List String,
      (matchedIds acc.1).Nodup →
      (∀ t ∈ matchedIds acc.1, t ∈ acc.2) →
      (matchedIds (shs.foldl (mapStep gs) acc).1).Nodup ∧
      (∀ t ∈ matchedIds (shs.foldl (mapStep gs) acc).1,
        t ∈ (shs.foldl (mapStep gs) acc).2) := by
  induction shs with
  | nil => intro acc h1 h2; exact ⟨h1, h2⟩
  | cons sh rest ih =>
    intro acc h1 h2
    rw [List.foldl_cons]
    rcases mapStep_cases gs acc sh with ⟨g, hfind, _, hstep⟩ | ⟨g, hscan, hstep⟩ |
        ⟨hscan, hstep⟩
    · rw [hstep]
      have hpred := List.find?_some hfind
      simp only [Bool.and_eq_true, Bool.not_eq_true'] at hpred
      have hnotused : g.threadId ∉ acc.2 := contains_false_not_mem hpred.2
      apply ih
      · rw [matchedIds_append_some]
        rw [List.nodup_append]
        refine ⟨h1, List.nodup_singleton _, ?_⟩
        intro t ht
        simp only [List.mem_singleton]
        intro heq
        subst heq
        exact hnotused (h2 _ ht)
      · intro t ht
        rw [matchedIds_append_some] at ht
        rcases List.mem_append.mp ht with h | h
        · exact List.mem_append_left _ (h2 t h)
        · exact List.mem_append_right _ h
    · rw [hstep]
      have hcon := ((fuzzyFold_inv sh acc.2 gs (none, 0)
        (fun g h => by cases h) (fun _ => rfl)).1 g hscan).1
      have hnotused : g.threadId ∉ acc.2 := contains_false_not_mem hcon
      apply ih
      · rw [matchedIds_append_some]
        rw [List.nodup_append]
        refine ⟨h1, List.nodup_singleton _, ?_⟩
        intro t ht
        simp only [List.mem_singleton]
        intro heq
        subst heq
        exact hnotused (h2 _ ht)
      · intro t ht
        rw [matchedIds_append_some] at ht
        rcases List.mem_append.mp ht with h | h
        · exact List.mem_append_left _ (h2 t h)
        · exact List.mem_append_right _ h
    · rw [hstep]
      apply ih
      · rw [matchedIds_append_none]
        exact h1
      · intro t ht
        rw [matchedIds_append_none] at ht
        exact h2 t ht

/-- C4: no canonical (Gmail) thread id is claimed by more than one
mapping result: the matched ids of the output of mapThreads are pairwise
distinct, for every pair of input lists. -/
theorem C4_no_canonical_reuse (shs : List SuperhumanThread) (gs : List GmailThread) :
    (matchedIds (mapThreads shs gs)).Nodup := by
  have h := mapFold_used gs shs ([], []) (by simp [matchedIds]) (by simp [matchedIds])
  exact h.1

theorem mapFold_resultOk (gs : List GmailThread) (shs : List SuperhumanThread) :
    ∀ acc : List MappedThread × List String,
      (∀ r ∈ acc.1, resultOk r) →
      ∀ r ∈ (shs.foldl (mapStep gs) acc).1, resultOk r := by
  induction shs with
  | nil => intro acc h; exact h
  | cons sh rest ih =>
    intro acc h
    rw [List.foldl_cons]
    rcases mapStep_cases gs acc sh with ⟨g, _, _, hstep⟩ | ⟨g, hscan, hstep⟩ |
        ⟨hscan, hstep⟩
    · rw [hstep]
      apply ih
      intro r hr
      rcases List.mem_append.mp hr with hmem | hmem
      · exact h r hmem
      · rw [List.mem_singleton] at hmem
        subst hmem
        unfold resultOk
        refine ⟨⟨fun hx => by simp at hx, fun hx => by simp at hx⟩,
          fun _ => rfl, fun hf => by simp at hf, fun hf => by simp at hf⟩
    · rw [hstep]
      apply ih
      intro r hr
      rcases List.mem_append.mp hr with hmem | hmem
      · exact h r hmem
      · rw [List.mem_singleton] at hmem
        subst hmem
        have hinv := (fuzzyFold_inv sh acc.2 gs (none, 0)
          (fun g h => by cases h) (fun _ => rfl)).1 g hscan
        have hle := fuzzyFold_le_one sh acc.2 gs (none, 0) (by norm_num)
        unfold resultOk
        refine ⟨⟨fun hx => by simp at hx, fun hx => by simp at hx⟩,
          fun hf => by simp at hf, fun _ => ⟨hinv.2.2, hle⟩,
          fun hf => by simp at hf⟩
    · rw [hstep]
      apply ih
      intro r hr
      rcases List.mem_append.mp hr with hmem | hmem
      · exact h r hmem
      · rw [List.mem_singleton] at hmem
        subst hmem
        have h0 := (fuzzyFold_inv sh acc.2 gs (none, 0)
          (fun g h => by cases h) (fun _ => rfl)).2 hscan
        unfold resultOk
        refine ⟨⟨fun _ => rfl, fun _ => rfl⟩,
          fun hf => by simp at hf, fun hf => by simp at hf, fun _ => h0⟩

/-- C10: every result returned by mapThreads satisfies the output
invariant: matched is null exactly when method is none, confidence is 1
for exact, strictly between 0.5 and at most 1 for fuzzy, and 0 for
none. -/
theorem C10_result_invariants (shs : List SuperhumanThread) (gs : List GmailThread) :
    ∀ r ∈ mapThreads shs gs, resultOk r := by
  apply mapFold_resultOk
  intro r hr
  cases hr

/-- C10 witness: the no-candidate run produces the all-none result. -/
theorem C10_result_invariants_witness : resultOk rW0 :=
  C10_result_invariants [shW0] [] rW0 (by with_unfolding_all decide)

end Mapping

namespace Mapping

/-- C6: for an observation resolved by the fuzzy stage, the accepted
candidate is unused, its score is the reported confidence and exceeds
0.5, it scores at least as high as every unused candidate, and it
strictly beats every unused candidate occurring before it in the
canonical list (first-encountered wins ties); when no candidate clears
the 0.5 threshold among the unused ones, nothing is accepted; and when
the exact stage finds nothing, mapThreads builds the result exactly from
this fuzzy scan. -/
theorem C6_fuzzy_selection (sh : SuperhumanThread) (used : List String)
    (gs : List GmailThread) :
    (∀ g, (fuzzyScan sh used gs).1 = some g →
      used.contains g.threadId = false ∧
      fuzzyScore sh g = (fuzzyScan sh used gs).2 ∧
      (1:ℚ)/2 < (fuzzyScan sh used gs).2 ∧
      (∀ g' ∈ gs, used.contains g'.threadId = false →
        fuzzyScore sh g' ≤ fuzzyScore sh g) ∧
      (∃ pre post, gs = pre ++ g :: post ∧
        ∀ g' ∈ pre, used.contains g'.threadId = false →
          fuzzyScore sh g' < fuzzyScore sh g)) ∧
    ((fuzzyScan sh used gs).1 = none →
      ∀ g' ∈ gs, used.contains g'.threadId = false → fuzzyScore sh g' ≤ 1/2) ∧
    (∀ results : List MappedThread,
      (sh.superhumanThreadId = "" ∨
        gs.find? (fun g => g.threadId == sh.superhumanThreadId &&
          !(used.contains g.threadId)) = none) →
      mapStep gs (results, used) sh =
        match (fuzzyScan sh used gs).1 with
        | some g =>
          (results ++ [⟨sh.position, sh, some g, (fuzzyScan sh used gs).2, "fuzzy"⟩],
            used ++ [g.threadId])
        | none =>
          (results ++ [⟨sh.position, sh, none, (fuzzyScan sh used gs).2, "none"⟩],
            used)) := by
  refine ⟨?_, ?_, ?_⟩
  · intro g hfin
    have hinv := (fuzzyFold_inv sh used gs (none, 0)
      (fun g h => by cases h) (fun _ => rfl)).1 g hfin
    have hmax := fuzzyFold_max sh used gs (none, 0)
      (fun g h => by cases h) (fun _ => rfl) g hfin
    have hfirst := fuzzyFold_first sh used gs (none, 0)
      (fun g h => by cases h) (fun _ => rfl) g hfin
    refine ⟨hinv.1, hinv.2.1, hinv.2.2, ?_, ?_⟩
    · intro g' hg' hcon'
      have := hmax g' hg' hcon'
      rw [hinv.2.1]
      exact this
    · rcases hfirst with ⟨h1, _⟩ | ⟨pre, post, hgs, _, _, _, hall⟩
      · cases h1
      · exact ⟨pre, post, hgs, hall⟩
  · intro hfin
    exact fuzzyFold_none_bound sh used gs (none, 0)
      (fun g h => by cases h) (fun _ => rfl) hfin
  · intro results hexact
    rcases hexact with hid | hfind
    · have hnid : ¬ sh.superhumanThreadId ≠ "" := fun hne => hne hid
      cases hscan : (fuzzyScan sh used gs).1 with
      | some g =>
        simp only [mapStep]
        rw [if_neg hnid, hscan]
      | none =>
        simp only [mapStep]
        rw [if_neg hnid, hscan]
    · by_cases hid : sh.superhumanThreadId ≠ ""
      · cases hscan : (fuzzyScan sh used gs).1 with
        | some g =>
          simp only [mapStep]
          rw [if_pos hid, hfind, hscan]
        | none =>
          simp only [mapStep]
          rw [if_pos hid, hfind, hscan]
      · cases hscan : (fuzzyScan sh used gs).1 with
        | some g =>
          simp only [mapStep]
          rw [if_neg hid, hscan]
        | none =>
          simp only [mapStep]
          rw [if_neg hid, hscan]

/-- C6 witness: the spec example pair scores 1.0 and is accepted as a
fuzzy match with confidence above 0.5. -/
theorem C6_fuzzy_selection_witness :
    (fuzzyScan shW [] [gW]).1 = some gW ∧
    fuzzyScore shW gW = (fuzzyScan shW [] [gW]).2 ∧
    (1:ℚ)/2 < (fuzzyScan shW [] [gW]).2 := by
  have h := (C6_fuzzy_selection shW [] [gW]).1 gW (by with_unfolding_all decide)
  exact ⟨by with_unfolding_all decide, h.2.1, h.2.2.1⟩

/-- C7: an observation whose non-empty external id equals the id of an
unused canonical message is matched exactly, with method exact and
confidence 1, independently of any fuzzy scores. -/
theorem C7_exact_wins (sh : SuperhumanThread) (used : List String)
    (gs : List GmailThread) (results : List MappedThread)
    (hid : sh.superhumanThreadId ≠ "")
    (hex : ∃ g ∈ gs, g.threadId = sh.superhumanThreadId ∧
      used.contains g.threadId = false) :
    ∃ g, g.threadId = sh.superhumanThreadId ∧ used.contains g.threadId = false ∧
      mapStep gs (results, used) sh =
        (results ++ [⟨sh.position, sh, some g, 1, "exact"⟩], used ++ [g.threadId]) := by
  obtain ⟨g₀, hg₀, htid, hcon⟩ := hex
  have hfind : (gs.find? (fun g => g.threadId == sh.superhumanThreadId &&
      !(used.contains g.threadId))).isSome = true := by
    cases hf : gs.find? (fun g => g.threadId == sh.superhumanThreadId &&
        !(used.contains g.threadId)) with
    | none =>
      have := List.find?_eq_none.mp hf g₀ hg₀
      simp [htid, hcon] at this
      rw [htid] at hcon
      exact absurd this (contains_false_not_mem hcon)
    | some g => rfl
  obtain ⟨g, hf⟩ := Option.isSome_iff_exists.mp hfind
  have hpred := List.find?_some hf
  simp only [Bool.and_eq_true, beq_iff_eq, Bool.not_eq_true'] at hpred
  refine ⟨g, hpred.1, hpred.2, ?_⟩
  simp only [mapStep]
  rw [if_pos hid, hf]

/-- C7 witness: a concrete exact match. -/
theorem C7_exact_wins_witness :
    ∃ g, g.threadId = shE.superhumanThreadId ∧
      ([] : List String).contains g.threadId = false ∧
      mapStep [gE] ([], []) shE =
        ([] ++ [⟨shE.position, shE, some g, 1, "exact"⟩], [] ++ [g.threadId]) :=
  C7_exact_wins shE [] [gE] [] (by decide) ⟨gE, by decide, by decide, by decide⟩

end Mapping
